import Mathlib

/-!
Shallow embedding of the `bitcoin` package (file `Amount.go`, the variant whose
`split`/`SplitString`/`Format` take a unit expressed as an `Amount`).

`Amount` is a Go `int64`; we model it as `Int` and apply `wrap64` (reduction
into `[-2^63, 2^63)`, i.e. twos-complement wrap-around) exactly at the
arithmetic steps where the Go program can overflow: the accumulator updates in
`Parse` and the negation inside `Abs` (in Go, `-MinInt64` wraps to `MinInt64`).
-/

/-- Twos-complement wrap-around of a 64-bit signed integer: reduces an
unbounded integer into `[-2^63, 2^63)`, the semantics of Go `int64`
arithmetic. -/
def wrap64 (x : Int) : Int :=
  (x + 2 ^ 63) % 2 ^ 64 - 2 ^ 63

/-- Go declaration `type Amount int64`. -/
abbrev Amount := Int

/-- Constant `Satoshi Amount = 1`. -/
def Satoshi : Amount := 1

/-- Constant `MicroBTC Amount = 100 * Satoshi`. -/
def MicroBTC : Amount := 100 * Satoshi

/-- Constant `MilliBTC Amount = 1000 * MicroBTC`. -/
def MilliBTC : Amount := 1000 * MicroBTC

/-- Constant `BTC Amount = 1000 * MilliBTC`. -/
def BTC : Amount := 1000 * MilliBTC

/-- Constant `AllBTC Amount = 20999999*BTC + 97690000*Satoshi`. -/
def AllBTC : Amount := 20999999 * BTC + 97690000 * Satoshi

/-- Method `func (a Amount) Abs() Amount`: `if a < 0 { return -a }; return a`.
The negation is Go `int64` negation, which wraps at `MinInt64`; `wrap64`
makes that machine behaviour explicit (it is the identity everywhere else). -/
def Amount.Abs (a : Amount) : Amount :=
  if a < 0 then wrap64 (-a) else a

/-- Method `func (a Amount) split(unit Amount) (int, int)`:
zero amount yields `(0, 0)`; zero unit yields the sentinel `(0, -1)`;
otherwise `right := a % unit` (Go `%` is truncating, sign follows the
dividend, i.e. `Int.tmod`) and `left := (a - right) / unit` (Go `/` is
truncating division, i.e. `Int.tdiv`; the division is exact here). -/
def Amount.split (a unit : Amount) : Int × Int :=
  if a = 0 then (0, 0)
  else if unit = 0 then (0, -1)
  else
    let right := Int.tmod a unit
    let left := Int.tdiv (a - right) unit
    (left, Amount.Abs right)

/-- Fuel-driven floor-log recursion: `log10go fuel n` counts how often `n`
can be divided by 10 before dropping below 10. -/
def log10go : Nat → Nat → Nat
  | 0, _ => 0
  | fuel + 1, n => if n < 10 then 0 else log10go fuel (n / 10) + 1

/-- Models `int(math.Log10(float64(unit)))` from `SplitString`. For
`unit = 10^k` with `0 ≤ k ≤ 18` (every power of ten representable in an
`int64`), `float64(unit)` is exact and the Go `math.Log10` function returns exactly `k`,
so the conversion yields `k = log10go 20 unit`. `SplitString` documents its
result as undefined when the unit is not a power of ten, so no claim depends
on other unit values. -/
def log10f (unit : Int) : Nat :=
  log10go 20 unit.toNat

/-- Models `fmt.Sprintf("%0<w>d", r)` for a non-negative `r` (the remainder
component of `split`): the decimal digits of `r`, left-padded with `'0'` up to
width `w`. -/
def padZeros (w : Nat) (s : String) : String :=
  String.mk (List.replicate (w - s.length) '0') ++ s

/-- The trailing-zero-stripping loop of `SplitString`, phrased on the
reversed character list. The Go loop
`for i := len-1; i > 0; i-- { if s[i] != '0' { break }; s = s[0:i] }`
repeatedly drops the final character while it is `'0'` and at least two
characters remain; on the reversed list that is: drop leading `'0'`s while
another character follows. -/
def stripRevZeros : List Char → List Char
  | [] => []
  | c :: cs => if c = '0' ∧ cs ≠ [] then stripRevZeros cs else c :: cs

/-- Method `func (a Amount) SplitString(unit Amount) (string, string)`:
`left`/`right` from `split`, `leftStr := fmt.Sprintf("%d", left)`,
`rightStr := fmt.Sprintf(rightFormat, right)` with padding width
`int(math.Log10(float64(unit)))`, then the trailing-zero strip loop. -/
def Amount.SplitString (a unit : Amount) : String × String :=
  let lr := Amount.split a unit
  let leftStr := toString lr.1
  let rightStr := padZeros (log10f unit) (toString lr.2)
  (leftStr, String.mk (stripRevZeros rightStr.data.reverse).reverse)

/-- Method `func (a Amount) Format(unit Amount) string`: `left` if the fractional
string is exactly `"0"`, else `left + "." + right`. -/
def Amount.Format (a unit : Amount) : String :=
  let p := Amount.SplitString a unit
  if p.2 = "0" then p.1 else p.1 ++ "." ++ p.2

/-- The scanning loop of `Parse`. State: accumulator `value`, the
`decimals`-seen flag, the `negative` flag, and the shrinking fractional
multiplier `mul`. `pos` is the loop position: the Go `range` loop yields the byte
offset, which is `0` exactly for the first rune, and the loop inspects `pos`
only through `pos == 0`, so the rune index is an equivalent model. `inp` is
the original input string, used only in the unknown-character message.
All accumulator arithmetic is Go `int64` arithmetic, hence `wrap64`. -/
def parseScan (inp : String) : List Char → Nat → Int → Bool → Bool → Int → Int × Option String
  | [], _, value, _, negative, _ =>
    if negative then (wrap64 (-value), none) else (value, none)
  | r :: rest, pos, value, decimals, negative, mul =>
    if r = '+' then
      if pos = 0 then parseScan inp rest (pos + 1) value decimals negative mul
      else (0, some "parse error, stray +")
    else if r = '-' then
      if pos = 0 then parseScan inp rest (pos + 1) value decimals true mul
      else (0, some "parse error, stray -")
    else if r = '0' ∨ r = '1' ∨ r = '2' ∨ r = '3' ∨ r = '4' ∨ r = '5' ∨ r = '6' ∨ r = '7' ∨ r = '8' ∨ r = '9' then
      -- runeVal: Amount(r) - '0'
      let d : Int := (r.toNat : Int) - 48
      if !decimals then
        -- add *= BTC; value *= 10; value += add
        parseScan inp rest (pos + 1) (wrap64 (wrap64 (value * 10) + wrap64 (d * BTC))) decimals negative mul
      else
        -- add *= mul; mul /= 10; value += add
        parseScan inp rest (pos + 1) (wrap64 (value + wrap64 (d * mul))) decimals negative (Int.tdiv mul 10)
    else if r = '.' ∨ r = ',' then
      if decimals then (0, some "parse error, too many decimal points")
      else parseScan inp rest (pos + 1) value true negative mul
    else
      (0, some ("parse error, unknown character: " ++ String.mk [r] ++ " of \x27" ++ inp ++ "\x27"))

/-- Function `func Parse(in string) (Amount, error)`: scan with `value = 0`,
`decimals = false`, `negative = false`, `mul = 100 * MilliBTC`; the final
negation for the `negative` flag happens inside the base case of `parseScan`.
The error is modelled as `Option String` (`none` = nil error); on error Go
returns the zero `Amount`, matching the first component here. -/
def Parse (inp : String) : Int × Option String :=
  parseScan inp inp.data 0 0 false false (100 * MilliBTC)

/-- Method `func (a *Amount) UnmarshalText(text []byte) error`: run `Parse`; on error
the receiver keeps its old value, on success it becomes the decoded amount.
Modelled as `(receiver before) → (receiver after, error)`. -/
def Amount.UnmarshalText (a : Amount) (text : List Char) : Amount × Option String :=
  match Parse (String.mk text) with
  | (decoded, none) => (decoded, none)
  | (_, some e) => (a, some e)

/-- The quote-stripping prelude of `UnmarshalJSON`:
`if len(in) > 2 && in[len(in)-1] == '"' && in[0] == '"' { in = in[1 : len(in)-2] }`.
Note the slice end is `len(in)-2`, so it keeps elements `1 .. len(in)-3`:
one leading byte and two trailing bytes are removed. -/
def jsonStripQuotes (inp : List Char) : List Char :=
  if 2 < inp.length ∧ inp.getLast? = some '"' ∧ inp.head? = some '"' then
    (inp.drop 1).take (inp.length - 3)
  else inp

/-- Method `func (a *Amount) UnmarshalJSON(in []byte) error`: strip quotes, try
`UnmarshalText`; on failure, try the float fallback
(`json.Unmarshal` into a `float64` followed by `fmt.Sprintf("%.08f", f)`),
which is floating-point and therefore kept abstract as the oracle `floatFmt`
(`none` = the JSON number decode failed); if the re-`Parse` of the fallback fails,
the original text error is surfaced and the receiver is untouched. -/
def Amount.UnmarshalJSON (floatFmt : List Char → Option String) (a : Amount)
    (inp : List Char) : Amount × Option String :=
  let inp2 := jsonStripQuotes inp
  match Amount.UnmarshalText a inp2 with
  | (a2, none) => (a2, none)
  | (_, some err) =>
    match floatFmt inp2 with
    | some fs =>
      match Parse fs with
      | (v, none) => (v, none)
      | (_, some _) => (a, some err)
    | none => (a, some err)

/-- Method `func (a Amount) String() string`: unit chosen by magnitude with strict
`>` comparisons on `Abs`, zero going to the BTC branch. (Declared after the
other `Amount` definitions because the declaration shadows the name of the
`String` type inside the `Amount` namespace.) -/
def Amount.String (a : Amount) : String :=
  if Amount.Abs a > BTC ∨ a = 0 then Amount.Format a BTC ++ " BTC"
  else if Amount.Abs a > MilliBTC then Amount.Format a MilliBTC ++ " mBTC"
  else Amount.Format a Satoshi ++ " sats"

/-! Spec-side vocabulary, written from the words of the claims. -/

/-- A decimal marker in the sense of the spec: `'.'` or `','`. -/
abbrev decimalMark (c : Char) : Prop := c = '.' ∨ c = ','

/-- An ASCII digit `'0'`-`'9'` (the enumeration of the `Parse` switch). -/
abbrev asciiDigit (c : Char) : Prop :=
  c = '0' ∨ c = '1' ∨ c = '2' ∨ c = '3' ∨ c = '4' ∨
  c = '5' ∨ c = '6' ∨ c = '7' ∨ c = '8' ∨ c = '9'

/-- The character set the claim C2 allows: ASCII digits, `'+'`, `'-'`,
`'.'`, `','`. -/
abbrev allowedChar (c : Char) : Prop :=
  asciiDigit c ∨ c = '+' ∨ c = '-' ∨ c = '.' ∨ c = ','

/-- The C2 error condition, word for word: the input contains a `'+'` at a
position other than 0, a `'-'` at a position other than 0, a decimal marker
after an earlier decimal marker, or a character outside the allowed set.
(A character sits at byte position 0 exactly when it is the first rune, so
index 0 models byte position 0.) -/
def specBad (cs : List Char) : Prop :=
  ∃ i, ∃ h : i < cs.length,
    (cs.get ⟨i, h⟩ = '+' ∧ i ≠ 0) ∨
    (cs.get ⟨i, h⟩ = '-' ∧ i ≠ 0) ∨
    (decimalMark (cs.get ⟨i, h⟩) ∧
      ∃ j, ∃ hj : j < cs.length, j < i ∧ decimalMark (cs.get ⟨j, hj⟩)) ∨
    ¬ allowedChar (cs.get ⟨i, h⟩)

/-- Generalisation of `specBad` over a partially consumed input: `first`
says whether the current suffix starts at the very beginning of the input
(so a sign there is legal), `dec` whether a decimal marker was already seen
in the consumed prefix. `specBad cs = specBadGen cs True False`. -/
def specBadGen (cs : List Char) (first dec : Prop) : Prop :=
  ∃ i, ∃ h : i < cs.length,
    ((cs.get ⟨i, h⟩ = '+' ∨ cs.get ⟨i, h⟩ = '-') ∧ ¬(i = 0 ∧ first)) ∨
    (decimalMark (cs.get ⟨i, h⟩) ∧
      (dec ∨ ∃ j, ∃ hj : j < cs.length, j < i ∧ decimalMark (cs.get ⟨j, hj⟩))) ∨
    ¬ allowedChar (cs.get ⟨i, h⟩)

/-- The fractional display string as the amended claim C8 words it: the
decimal digits of the remainder, zero-padded on the left to width `w`, with
trailing zeros then stripped from the right down to (but not below) one
character. -/
def rightStrSpec (w : Nat) (r : Int) : String :=
  String.mk (stripRevZeros (padZeros w (toString r)).data.reverse).reverse

/-! Helper lemmas. -/

/-- Lemma: `wrap64` is the identity on the `int64` range. -/
theorem wrap64_eq_self {x : Int} (h1 : -2 ^ 63 ≤ x) (h2 : x < 2 ^ 63) :
    wrap64 x = x := by
  unfold wrap64
  have h0 : (0 : Int) ≤ x + 2 ^ 63 := by omega
  have hlt : x + 2 ^ 63 < 2 ^ 64 := by omega
  rw [Int.emod_eq_of_lt h0 hlt]
  omega

/-- Truncating remainder negates with the dividend. -/
theorem tmod_neg_dividend (a b : Int) : Int.tmod (-a) b = -Int.tmod a b := by
  rw [Int.tmod_def, Int.tmod_def, Int.neg_tdiv]
  ring

/-! Claim theorems. -/

/-- C9: `split` with a zero unit and a nonzero amount returns the sentinel
`(0, -1)`, and `split` of the zero amount returns `(0, 0)` for every unit,
including a zero unit. -/
theorem c9_split_zero_sentinels (a u : Amount) :
    (a ≠ 0 → Amount.split a 0 = (0, -1)) ∧ Amount.split 0 u = (0, 0) := by
  constructor
  · intro ha
    simp [Amount.split, ha]
  · simp [Amount.split]

/-- Witness for C9 at `a = 3`, `u = 7`. -/
theorem c9_split_zero_sentinels_witness :
    Amount.split 3 0 = (0, -1) ∧ Amount.split 0 7 = (0, 0) :=
  ⟨(c9_split_zero_sentinels 3 7).1 (by decide), (c9_split_zero_sentinels 3 7).2⟩

/-- C10: whenever `UnmarshalText` or `UnmarshalJSON` returns a non-nil
error, the receiver is unchanged (for every float-fallback oracle). -/
theorem c10_receiver_unchanged_on_error
    (oracle : List Char → Option String) (a : Amount) (t inp : List Char) :
    ((Amount.UnmarshalText a t).2 ≠ none → (Amount.UnmarshalText a t).1 = a) ∧
    ((Amount.UnmarshalJSON oracle a inp).2 ≠ none →
      (Amount.UnmarshalJSON oracle a inp).1 = a) := by
  constructor
  · unfold Amount.UnmarshalText
    rcases hp : Parse (String.mk t) with ⟨v, e⟩
    cases e <;> simp
  · unfold Amount.UnmarshalJSON Amount.UnmarshalText
    rcases hp : Parse (String.mk (jsonStripQuotes inp)) with ⟨v, e⟩
    cases e with
    | none => simp [hp]
    | some err =>
      cases ho : oracle (jsonStripQuotes inp) with
      | none => simp [hp, ho]
      | some fs =>
        rcases hq : Parse fs with ⟨w, e2⟩
        cases e2 <;> simp [hp, ho, hq]

/-- Witness for C10: a failed decode of the non-numeric input `"x"` leaves
the receiver value 7 in place. -/
theorem c10_receiver_unchanged_on_error_witness :
    (Amount.UnmarshalText 7 "x".data).1 = 7 ∧
    (Amount.UnmarshalJSON (fun _ => none) 7 "x".data).1 = 7 :=
  ⟨(c10_receiver_unchanged_on_error (fun _ => none) 7 "x".data "x".data).1
      (by decide),
   (c10_receiver_unchanged_on_error (fun _ => none) 7 "x".data "x".data).2
      (by decide)⟩

/-- C5: `String()` picks the unit by strict `>` comparisons on `Abs`:
BTC when `Abs a > BTC` or `a = 0`, else mBTC when `Abs a > MilliBTC`, else
sats; zero renders as `"0 BTC"`, and an amount exactly equal to `BTC` falls
through to the mBTC branch, rendering `"1000 mBTC"`. -/
theorem c5_string_unit_selection (a : Amount) :
    ((Amount.Abs a > BTC ∨ a = 0) →
      Amount.String a = Amount.Format a BTC ++ " BTC") ∧
    (¬(Amount.Abs a > BTC ∨ a = 0) → Amount.Abs a > MilliBTC →
      Amount.String a = Amount.Format a MilliBTC ++ " mBTC") ∧
    (¬(Amount.Abs a > BTC ∨ a = 0) → ¬(Amount.Abs a > MilliBTC) →
      Amount.String a = Amount.Format a Satoshi ++ " sats") ∧
    Amount.String 0 = "0 BTC" ∧ Amount.String BTC = "1000 mBTC" := by
  refine ⟨?_, ?_, ?_, by decide, by decide⟩
  · intro h
    simp [Amount.String, h]
  · intro h1 h2
    simp [Amount.String, h1, h2]
  · intro h1 h2
    simp [Amount.String, h1, h2]

/-- Witness for C5 exercising all three branches at concrete amounts. -/
theorem c5_string_unit_selection_witness :
    Amount.String 200000001 = Amount.Format 200000001 BTC ++ " BTC" ∧
    Amount.String 100000000 = Amount.Format 100000000 MilliBTC ++ " mBTC" ∧
    Amount.String 23000 = Amount.Format 23000 Satoshi ++ " sats" :=
  ⟨(c5_string_unit_selection 200000001).1 (by decide),
   (c5_string_unit_selection 100000000).2.1 (by decide) (by decide),
   (c5_string_unit_selection 23000).2.2.1 (by decide) (by decide)⟩

/-- C1 fails on the code: `Parse "-0.5"` is the well-formed canonical input
`[-]digits[.digits]` with one fractional digit, it parses to `-50000000`
satoshis, but formatting at the finest-resolution boundary (`Format BTC`,
the boundary `MarshalText` uses) yields `"0.5"` — the sign is lost because
the integer quotient is `0` and the sign lives only in the left part — and
re-parsing yields `+50000000 ≠ -50000000`. -/
theorem c1_roundtrip_sign_loss :
    Parse "-0.5" = (-50000000, none) ∧
    Amount.Format (-50000000) BTC = "0.5" ∧
    Parse (Amount.Format (Parse "-0.5").1 BTC) = (50000000, none) ∧
    (50000000 : Int) ≠ (-50000000 : Int) :=
  ⟨by decide, by decide, by decide, by decide⟩

/-- C4 fails on the code: for the 5-byte JSON string `"1.5"` (quotes
included) the slice `in[1 : len(in)-2]` keeps only `1.`, dropping the final
payload byte `5` together with the closing quote, so `UnmarshalJSON`
decodes 1 BTC while `UnmarshalText` on the true interior `1.5` decodes
1.5 BTC. -/
theorem c4_unmarshalJSON_drops_last_payload_byte :
    jsonStripQuotes ("\"1.5\"".data) = "1.".data ∧
    Amount.UnmarshalJSON (fun _ => none) 0 ("\"1.5\"".data) = (100000000, none) ∧
    Amount.UnmarshalText 0 ("1.5".data) = (150000000, none) ∧
    (100000000 : Int) ≠ (150000000 : Int) :=
  ⟨by decide, by decide, by decide, by decide⟩

/-- The inputs cited by C7 are not accepted: a sign after a leading zero digit
makes `Parse` return a stray-sign error (with the zero `Amount` alongside,
which is what the test suite observes after discarding the error). -/
theorem c7_stray_sign_is_error :
    Parse "0+020.0" = (0, some "parse error, stray +") ∧
    Parse "0-020.0" = (0, some "parse error, stray -") :=
  ⟨by decide, by decide⟩

/-- The C8 width formula fails on the code: at `a = 1` satoshi and
`u = BTC = 10^8` the code pads to `log10(u) = 8` digits giving
`"00000001"`, while the claimed width `log10(BTC) - log10(u) = 0` would
give `"1"`. -/
theorem c8_width_counterexample :
    (Amount.SplitString 1 BTC).2 = "00000001" ∧
    rightStrSpec (8 - 8) ((Amount.split 1 BTC).2) = "1" ∧
    (Amount.SplitString 1 BTC).2 ≠ rightStrSpec (8 - 8) ((Amount.split 1 BTC).2) :=
  ⟨by decide, by decide, by decide⟩

/-- Lemma: `specBadGen` respects equivalence of its `first`/`dec` parameters. -/
theorem specBadGen_congr {cs : List Char} {f1 f2 d1 d2 : Prop}
    (hf : f1 ↔ f2) (hd : d1 ↔ d2) :
    specBadGen cs f1 d1 ↔ specBadGen cs f2 d2 := by
  unfold specBadGen
  exact exists_congr fun i => exists_congr fun h => by rw [hf, hd]

/-- Unfolding `specBadGen` over the head of the input: either the head
character itself is in error, or the tail is, with `first := False` and
`dec` enriched by whether the head was a decimal marker. -/
theorem specBadGen_cons (c : Char) (cs : List Char) (first dec : Prop) :
    specBadGen (c :: cs) first dec ↔
      ((((c = '+' ∨ c = '-') ∧ ¬ first) ∨ (decimalMark c ∧ dec) ∨
          ¬ allowedChar c) ∨
        specBadGen cs False (dec ∨ decimalMark c)) := by
  constructor
  · rintro ⟨i, h, hbad⟩
    cases i with
    | zero =>
      left
      simp only [List.get] at hbad
      rcases hbad with ⟨hs, hne⟩ | ⟨hm, hd⟩ | hna
      · exact Or.inl ⟨hs, fun hf => hne ⟨by trivial, hf⟩⟩
      · rcases hd with hd | ⟨j, hj, hji, _⟩
        · exact Or.inr (Or.inl ⟨hm, hd⟩)
        · omega
      · exact Or.inr (Or.inr hna)
    | succ i =>
      right
      have h2 : i < cs.length := by
        simp only [List.length_cons] at h
        omega
      refine ⟨i, h2, ?_⟩
      simp only [List.get] at hbad
      rcases hbad with ⟨hs, _⟩ | ⟨hm, hd⟩ | hna
      · exact Or.inl ⟨hs, by simp⟩
      · refine Or.inr (Or.inl ⟨hm, ?_⟩)
        rcases hd with hd | ⟨j, hj, hji, hjm⟩
        · exact Or.inl (Or.inl hd)
        · cases j with
          | zero =>
            simp only [List.get] at hjm
            exact Or.inl (Or.inr hjm)
          | succ j =>
            have hj2 : j < cs.length := by
              simp only [List.length_cons] at hj
              omega
            simp only [List.get] at hjm
            exact Or.inr ⟨j, hj2, by omega, hjm⟩
      · exact Or.inr (Or.inr hna)
  · rintro (hhead | ⟨i, h, hbad⟩)
    · refine ⟨0, by simp, ?_⟩
      simp only [List.get]
      rcases hhead with ⟨hs, hnf⟩ | ⟨hm, hd⟩ | hna
      · exact Or.inl ⟨hs, fun hc => hnf hc.2⟩
      · exact Or.inr (Or.inl ⟨hm, Or.inl hd⟩)
      · exact Or.inr (Or.inr hna)
    · have h1 : i + 1 < (c :: cs).length := by
        simp only [List.length_cons]
        omega
      refine ⟨i + 1, h1, ?_⟩
      simp only [List.get]
      rcases hbad with ⟨hs, _⟩ | ⟨hm, hd⟩ | hna
      · exact Or.inl ⟨hs, by simp⟩
      · refine Or.inr (Or.inl ⟨hm, ?_⟩)
        rcases hd with (hd | hmc) | ⟨j, hj, hji, hjm⟩
        · exact Or.inl hd
        · refine Or.inr ⟨0, by simp, by omega, ?_⟩
          simp only [List.get]
          exact hmc
        · have hj1 : j + 1 < (c :: cs).length := by
            simp only [List.length_cons]
            omega
          refine Or.inr ⟨j + 1, hj1, by omega, ?_⟩
          simp only [List.get]
          exact hjm
      · exact Or.inr (Or.inr hna)

/-- Error characterisation of the scanning loop: `parseScan` reports an
error exactly when the remaining input is bad in the sense of
`specBadGen`, where `first` records whether the scan is still at position
0 and `dec` whether a decimal marker was already consumed. The accumulator
`v`, the `negative` flag and the multiplier `mul` are irrelevant to the
error behaviour. -/
theorem parseScan_err_iff (cs : List Char) :
    ∀ (inp : String) (pos : Nat) (v : Int) (dec neg : Bool) (mul : Int),
    (parseScan inp cs pos v dec neg mul).2 ≠ none ↔
      specBadGen cs (pos = 0) (dec = true) := by
  induction cs with
  | nil =>
    intro inp pos v dec neg mul
    constructor
    · intro h
      exfalso
      apply h
      cases neg <;> simp [parseScan]
    · rintro ⟨i, h, _⟩
      exact absurd h (by simp)
  | cons c cs ih =>
    intro inp pos v dec neg mul
    rw [specBadGen_cons]
    by_cases h1 : c = '+'
    · subst h1
      by_cases hp : pos = 0
      · rw [show parseScan inp ('+' :: cs) pos v dec neg mul =
              parseScan inp cs (pos + 1) v dec neg mul from by
            simp [parseScan, hp]]
        rw [ih inp (pos + 1) v dec neg mul]
        rw [specBadGen_congr (show (pos + 1 = 0) ↔ False from iff_false_intro (by omega))
              (show (dec = true) ↔ ((dec = true) ∨ decimalMark '+') from
                (or_iff_left (by decide)).symm)]
        refine (or_iff_right ?_).symm
        rintro (⟨_, hnp⟩ | ⟨hm, _⟩ | hna)
        · exact hnp hp
        · exact absurd hm (by decide)
        · exact hna (by decide)
      · rw [show parseScan inp ('+' :: cs) pos v dec neg mul =
              (0, some "parse error, stray +") from by simp [parseScan, hp]]
        constructor
        · intro _
          exact Or.inl (Or.inl ⟨Or.inl rfl, hp⟩)
        · intro _
          simp
    · by_cases h2 : c = '-'
      · subst h2
        by_cases hp : pos = 0
        · rw [show parseScan inp ('-' :: cs) pos v dec neg mul =
                parseScan inp cs (pos + 1) v dec true mul from by
              simp [parseScan, hp]]
          rw [ih inp (pos + 1) v dec true mul]
          rw [specBadGen_congr (show (pos + 1 = 0) ↔ False from iff_false_intro (by omega))
                (show (dec = true) ↔ ((dec = true) ∨ decimalMark '-') from
                  (or_iff_left (by decide)).symm)]
          refine (or_iff_right ?_).symm
          rintro (⟨_, hnp⟩ | ⟨hm, _⟩ | hna)
          · exact hnp hp
          · exact absurd hm (by decide)
          · exact hna (by decide)
        · rw [show parseScan inp ('-' :: cs) pos v dec neg mul =
                (0, some "parse error, stray -") from by simp [parseScan, hp]]
          constructor
          · intro _
            exact Or.inl (Or.inl ⟨Or.inr rfl, hp⟩)
          · intro _
            simp
      · by_cases h3 : c = '0' ∨ c = '1' ∨ c = '2' ∨ c = '3' ∨ c = '4' ∨
            c = '5' ∨ c = '6' ∨ c = '7' ∨ c = '8' ∨ c = '9'
        · have hnm : ¬ decimalMark c := by
            rcases h3 with rfl | rfl | rfl | rfl | rfl | rfl | rfl | rfl | rfl | rfl <;> decide
          have hna : allowedChar c := Or.inl h3
          have hcongr := @specBadGen_congr cs (pos + 1 = 0) False (dec = true)
            ((dec = true) ∨ decimalMark c)
            (show (pos + 1 = 0) ↔ False from iff_false_intro (by omega))
            (show (dec = true) ↔ ((dec = true) ∨ decimalMark c) from
              (or_iff_left hnm).symm)
          have hrest : specBadGen cs False ((dec = true) ∨ decimalMark c) ↔
              ((((c = '+' ∨ c = '-') ∧ ¬(pos = 0)) ∨
                (decimalMark c ∧ (dec = true)) ∨ ¬ allowedChar c) ∨
                specBadGen cs False ((dec = true) ∨ decimalMark c)) := by
            refine (or_iff_right ?_).symm
            rintro (⟨hs, _⟩ | ⟨hm, _⟩ | hn)
            · rcases hs with hs | hs
              · exact h1 hs
              · exact h2 hs
            · exact hnm hm
            · exact hn hna
          cases dec with
          | false =>
            rw [show parseScan inp (c :: cs) pos v false neg mul =
                  parseScan inp cs (pos + 1)
                    (wrap64 (wrap64 (v * 10) + wrap64 (((c.toNat : Int) - 48) * BTC)))
                    false neg mul from by simp [parseScan, h1, h2, h3]]
            rw [ih]
            rw [hcongr]
            exact hrest
          | true =>
            rw [show parseScan inp (c :: cs) pos v true neg mul =
                  parseScan inp cs (pos + 1)
                    (wrap64 (v + wrap64 (((c.toNat : Int) - 48) * mul)))
                    true neg (Int.tdiv mul 10) from by simp [parseScan, h1, h2, h3]]
            rw [ih]
            rw [hcongr]
            exact hrest
        · by_cases h4 : c = '.' ∨ c = ','
          · have hm : decimalMark c := h4
            have hal : allowedChar c := by
              rcases h4 with h | h
              · exact Or.inr (Or.inr (Or.inr (Or.inl h)))
              · exact Or.inr (Or.inr (Or.inr (Or.inr h)))
            cases dec with
            | true =>
              rw [show parseScan inp (c :: cs) pos v true neg mul =
                    (0, some "parse error, too many decimal points") from by
                  simp [parseScan, h1, h2, h3, h4]]
              constructor
              · intro _
                exact Or.inl (Or.inr (Or.inl ⟨hm, rfl⟩))
              · intro _
                simp
            | false =>
              rw [show parseScan inp (c :: cs) pos v false neg mul =
                    parseScan inp cs (pos + 1) v true neg mul from by
                  simp [parseScan, h1, h2, h3, h4]]
              rw [ih]
              rw [specBadGen_congr (show (pos + 1 = 0) ↔ False from iff_false_intro (by omega))
                    (show (true = true) ↔ ((false = true) ∨ decimalMark c) from
                      iff_of_true rfl (Or.inr hm))]
              refine (or_iff_right ?_).symm
              rintro (⟨hs, _⟩ | ⟨_, hft⟩ | hn)
              · rcases hs with hs | hs
                · exact h1 hs
                · exact h2 hs
              · exact absurd hft (by simp)
              · exact hn hal
          · have hna : ¬ allowedChar c := by
              rintro (hd | h | h | h | h)
              · exact h3 hd
              · exact h1 h
              · exact h2 h
              · exact h4 (Or.inl h)
              · exact h4 (Or.inr h)
            rw [show parseScan inp (c :: cs) pos v dec neg mul =
                  (0, some ("parse error, unknown character: " ++
                    String.mk [c] ++ " of \x27" ++ inp ++ "\x27")) from by
                simp [parseScan, h1, h2, h3, h4]]
            constructor
            · intro _
              exact Or.inl (Or.inr (Or.inr hna))
            · intro _
              simp

/-- C2: `Parse` returns an error exactly when the input contains a `'+'`
at a position other than 0, a `'-'` at a position other than 0, a decimal
marker after an earlier decimal marker, or a character outside
`{'0'..'9', '+', '-', '.', ','}`; and the empty string and the bare string
`"-"` parse successfully to zero. -/
theorem c2_parse_error_iff :
    (∀ s : String, (Parse s).2 ≠ none ↔ specBad s.data) ∧
    Parse "" = (0, none) ∧ Parse "-" = (0, none) := by
  refine ⟨?_, by decide, by decide⟩
  intro s
  unfold Parse
  rw [parseScan_err_iff]
  unfold specBadGen specBad
  refine exists_congr fun i => exists_congr fun h => ?_
  constructor
  · rintro (⟨hs | hs, hne⟩ | ⟨hm, hd | hd⟩ | hna)
    · exact Or.inl ⟨hs, fun hi => hne ⟨hi, rfl⟩⟩
    · exact Or.inr (Or.inl ⟨hs, fun hi => hne ⟨hi, rfl⟩⟩)
    · exact absurd hd (by simp)
    · exact Or.inr (Or.inr (Or.inl ⟨hm, hd⟩))
    · exact Or.inr (Or.inr (Or.inr hna))
  · rintro (⟨hs, hi⟩ | ⟨hs, hi⟩ | ⟨hm, hd⟩ | hna)
    · exact Or.inl ⟨Or.inl hs, fun hc => hi hc.1⟩
    · exact Or.inl ⟨Or.inr hs, fun hc => hi hc.1⟩
    · exact Or.inr (Or.inl ⟨hm, Or.inr hd⟩)
    · exact Or.inr (Or.inr hna)

/-- Witness for C2: `"0x"` contains the disallowed character `'x'`, and
applying the characterisation to its (decidable) parse failure produces
the positional badness predicate. -/
theorem c2_parse_error_iff_witness : specBad "0x".data :=
  (c2_parse_error_iff.1 "0x").mp (by decide)

/-- C7 amended: an input with a sign character anywhere past the first
position — in particular after a leading zero digit — always makes `Parse`
return a (non-nil) error; it is not accepted. (The concrete error pairs for
the two example inputs of the claim are in `c7_stray_sign_is_error`.) -/
theorem c7_sign_after_digit_rejected (s : String) (i : Nat)
    (h : i < s.data.length) (hi : i ≠ 0)
    (hs : s.data.get ⟨i, h⟩ = '+' ∨ s.data.get ⟨i, h⟩ = '-') :
    (Parse s).2 ≠ none := by
  unfold Parse
  rw [parseScan_err_iff]
  exact ⟨i, h, Or.inl ⟨hs, fun hc => hi hc.1⟩⟩

/-- Witness for the amended C7 theorem at the example input of the claim,
`"0+020.0"`, whose `'+'` sits at index 1. -/
theorem c7_sign_after_digit_rejected_witness : (Parse "0+020.0").2 ≠ none :=
  c7_sign_after_digit_rejected "0+020.0" 1 (by decide) (by decide)
    (Or.inl (by decide))

/-- Away from position 0 (where sign characters would behave differently),
two scans of the same suffix that differ only in the `negative` flag (and
in the original-input string used for error messages) fail together, and on
success the `negative` run returns the `int64` negation of the result of the
other run. -/
theorem parseScan_neg_rel (cs : List Char) :
    ∀ (in1 in2 : String) (p q : Nat) (v : Int) (dec : Bool) (mul : Int),
    p ≠ 0 → q ≠ 0 →
    (((parseScan in1 cs p v dec false mul).2 = none ↔
        (parseScan in2 cs q v dec true mul).2 = none) ∧
      ((parseScan in1 cs p v dec false mul).2 = none →
        parseScan in2 cs q v dec true mul =
          (wrap64 (-(parseScan in1 cs p v dec false mul).1), none))) := by
  induction cs with
  | nil =>
    intro in1 in2 p q v dec mul hp hq
    constructor
    · simp [parseScan]
    · intro _
      simp [parseScan]
  | cons c cs ih =>
    intro in1 in2 p q v dec mul hp hq
    by_cases h1 : c = '+'
    · rw [show parseScan in1 (c :: cs) p v dec false mul =
            (0, some "parse error, stray +") from by simp [parseScan, h1, hp]]
      rw [show parseScan in2 (c :: cs) q v dec true mul =
            (0, some "parse error, stray +") from by simp [parseScan, h1, hq]]
      exact ⟨by simp, by simp⟩
    · by_cases h2 : c = '-'
      · rw [show parseScan in1 (c :: cs) p v dec false mul =
              (0, some "parse error, stray -") from by simp [parseScan, h1, h2, hp]]
        rw [show parseScan in2 (c :: cs) q v dec true mul =
              (0, some "parse error, stray -") from by simp [parseScan, h1, h2, hq]]
        exact ⟨by simp, by simp⟩
      · by_cases h3 : c = '0' ∨ c = '1' ∨ c = '2' ∨ c = '3' ∨ c = '4' ∨
            c = '5' ∨ c = '6' ∨ c = '7' ∨ c = '8' ∨ c = '9'
        · cases dec with
          | false =>
            rw [show parseScan in1 (c :: cs) p v false false mul =
                  parseScan in1 cs (p + 1)
                    (wrap64 (wrap64 (v * 10) + wrap64 (((c.toNat : Int) - 48) * BTC)))
                    false false mul from by simp [parseScan, h1, h2, h3]]
            rw [show parseScan in2 (c :: cs) q v false true mul =
                  parseScan in2 cs (q + 1)
                    (wrap64 (wrap64 (v * 10) + wrap64 (((c.toNat : Int) - 48) * BTC)))
                    false true mul from by simp [parseScan, h1, h2, h3]]
            exact ih in1 in2 (p + 1) (q + 1) _ false mul (by omega) (by omega)
          | true =>
            rw [show parseScan in1 (c :: cs) p v true false mul =
                  parseScan in1 cs (p + 1)
                    (wrap64 (v + wrap64 (((c.toNat : Int) - 48) * mul)))
                    true false (Int.tdiv mul 10) from by simp [parseScan, h1, h2, h3]]
            rw [show parseScan in2 (c :: cs) q v true true mul =
                  parseScan in2 cs (q + 1)
                    (wrap64 (v + wrap64 (((c.toNat : Int) - 48) * mul)))
                    true true (Int.tdiv mul 10) from by simp [parseScan, h1, h2, h3]]
            exact ih in1 in2 (p + 1) (q + 1) _ true (Int.tdiv mul 10) (by omega) (by omega)
        · by_cases h4 : c = '.' ∨ c = ','
          · cases dec with
            | true =>
              rw [show parseScan in1 (c :: cs) p v true false mul =
                    (0, some "parse error, too many decimal points") from by
                  simp [parseScan, h1, h2, h3, h4]]
              rw [show parseScan in2 (c :: cs) q v true true mul =
                    (0, some "parse error, too many decimal points") from by
                  simp [parseScan, h1, h2, h3, h4]]
              exact ⟨by simp, by simp⟩
            | false =>
              rw [show parseScan in1 (c :: cs) p v false false mul =
                    parseScan in1 cs (p + 1) v true false mul from by
                  simp [parseScan, h1, h2, h3, h4]]
              rw [show parseScan in2 (c :: cs) q v false true mul =
                    parseScan in2 cs (q + 1) v true true mul from by
                  simp [parseScan, h1, h2, h3, h4]]
              exact ih in1 in2 (p + 1) (q + 1) v true mul (by omega) (by omega)
          · rw [show parseScan in1 (c :: cs) p v dec false mul =
                  (0, some ("parse error, unknown character: " ++
                    String.mk [c] ++ " of \x27" ++ in1 ++ "\x27")) from by
                simp [parseScan, h1, h2, h3, h4]]
            rw [show parseScan in2 (c :: cs) q v dec true mul =
                  (0, some ("parse error, unknown character: " ++
                    String.mk [c] ++ " of \x27" ++ in2 ++ "\x27")) from by
                simp [parseScan, h1, h2, h3, h4]]
            exact ⟨by simp, by simp⟩

/-- C6 fails as stated: `X = "+1"` is valid (`Parse` succeeds with
`+1 BTC`), yet `"-" ++ X = "-+1"` does not parse to the negation — it is
rejected with a stray-plus error, returning the zero amount. -/
theorem c6_sign_symmetry_counterexample :
    (Parse "+1").2 = none ∧ (Parse "+1").1 = 100000000 ∧
    (Parse ("-" ++ "+1")).2 ≠ none ∧ (Parse ("-" ++ "+1")).1 = 0 ∧
    (0 : Int) ≠ -100000000 :=
  ⟨by decide, by decide, by decide, by decide, by decide⟩

/-- C6 amended: for every valid input `X` whose first character is not a
sign, `Parse ("-" ++ X)` succeeds and its value is the `int64`
(twos-complement) negation of the value of `Parse X`. -/
theorem c6_sign_symmetry_amended (X : String) (hok : (Parse X).2 = none)
    (h1 : X.data.head? ≠ some '+') (h2 : X.data.head? ≠ some '-') :
    Parse ("-" ++ X) = (wrap64 (-(Parse X).1), none) := by
  have hdata : ("-" ++ X).data = '-' :: X.data := by
    cases X
    rfl
  unfold Parse at hok ⊢
  rw [hdata]
  rw [show parseScan ("-" ++ X) ('-' :: X.data) 0 0 false false (100 * MilliBTC) =
        parseScan ("-" ++ X) X.data 1 0 false true (100 * MilliBTC) from by
      simp [parseScan]]
  cases hX : X.data with
  | nil =>
    simp [parseScan]
  | cons c cs =>
    rw [hX] at hok
    have hc1 : c ≠ '+' := by
      intro h
      apply h1
      rw [hX, h]
      rfl
    have hc2 : c ≠ '-' := by
      intro h
      apply h2
      rw [hX, h]
      rfl
    by_cases h3 : c = '0' ∨ c = '1' ∨ c = '2' ∨ c = '3' ∨ c = '4' ∨
        c = '5' ∨ c = '6' ∨ c = '7' ∨ c = '8' ∨ c = '9'
    · rw [show parseScan X (c :: cs) 0 0 false false (100 * MilliBTC) =
            parseScan X cs 1
              (wrap64 (wrap64 (0 * 10) + wrap64 (((c.toNat : Int) - 48) * BTC)))
              false false (100 * MilliBTC) from by
          simp [parseScan, hc1, hc2, h3]] at hok ⊢
      rw [show parseScan ("-" ++ X) (c :: cs) 1 0 false true (100 * MilliBTC) =
            parseScan ("-" ++ X) cs 2
              (wrap64 (wrap64 (0 * 10) + wrap64 (((c.toNat : Int) - 48) * BTC)))
              false true (100 * MilliBTC) from by
          simp [parseScan, hc1, hc2, h3]]
      exact (parseScan_neg_rel cs X ("-" ++ X) 1 2 _ false (100 * MilliBTC)
        (by omega) (by omega)).2 hok
    · by_cases h4 : c = '.' ∨ c = ','
      · rw [show parseScan X (c :: cs) 0 0 false false (100 * MilliBTC) =
              parseScan X cs 1 0 true false (100 * MilliBTC) from by
            simp [parseScan, hc1, hc2, h3, h4]] at hok ⊢
        rw [show parseScan ("-" ++ X) (c :: cs) 1 0 false true (100 * MilliBTC) =
              parseScan ("-" ++ X) cs 2 0 true true (100 * MilliBTC) from by
            simp [parseScan, hc1, hc2, h3, h4]]
        exact (parseScan_neg_rel cs X ("-" ++ X) 1 2 0 true (100 * MilliBTC)
          (by omega) (by omega)).2 hok
      · exfalso
        rw [show parseScan X (c :: cs) 0 0 false false (100 * MilliBTC) =
              (0, some ("parse error, unknown character: " ++
                String.mk [c] ++ " of \x27" ++ X ++ "\x27")) from by
            simp [parseScan, hc1, hc2, h3, h4]] at hok
        simp at hok

/-- Witness for the amended C6 theorem at `X = "2.5"`. -/
theorem c6_sign_symmetry_amended_witness :
    Parse ("-" ++ "2.5") = (wrap64 (-(Parse "2.5").1), none) :=
  c6_sign_symmetry_amended "2.5" (by decide) (by decide) (by decide)

/-- C3: for every amount `a` and positive power-of-ten unit `u = 10^k`
(with `k ≤ 18` so `u` fits an `int64`), `split` returns `(left, right)`
with `left*u + sign(a)*right = a`, where `right` is the absolute value of
the truncating remainder `a tmod u`, whose sign (before the absolute
value) follows the dividend. -/
theorem c3_split_invariant (a : Amount) (k : Nat) (hk : k ≤ 18) :
    (Amount.split a (10 ^ k)).1 * 10 ^ k +
        a.sign * (Amount.split a (10 ^ k)).2 = a ∧
    (Amount.split a (10 ^ k)).2 = |Int.tmod a (10 ^ k)| ∧
    Int.tmod a (10 ^ k) = a.sign * (Amount.split a (10 ^ k)).2 := by
  set u : Int := 10 ^ k with hu_def
  have hu : 0 < u := pow_pos (by norm_num) k
  have hub : u ≤ 10 ^ 18 := pow_le_pow_right₀ (by norm_num) hk
  by_cases ha : a = 0
  · subst ha
    simp [Amount.split]
  · have hsplit : Amount.split a u =
        (Int.tdiv (a - Int.tmod a u) u, Amount.Abs (Int.tmod a u)) := by
      simp [Amount.split, ha, hu.ne']
    have htb : |Int.tmod a u| < u := by
      rcases le_or_lt 0 a with hge | hlt
      · rw [abs_of_nonneg (Int.tmod_nonneg u hge)]
        exact Int.tmod_lt_of_pos a hu
      · have h0 : Int.tmod a u = -Int.tmod (-a) u := by
          rw [tmod_neg_dividend, neg_neg]
        have hge2 : (0 : Int) ≤ -a := by linarith
        rw [h0, abs_neg, abs_of_nonneg (Int.tmod_nonneg u hge2)]
        exact Int.tmod_lt_of_pos (-a) hu
    have habs : Amount.Abs (Int.tmod a u) = |Int.tmod a u| := by
      unfold Amount.Abs
      by_cases hng : Int.tmod a u < 0
      · rw [if_pos hng, abs_of_neg hng, wrap64_eq_self]
        · omega
        · have := abs_of_neg hng
          omega
      · rw [if_neg hng, abs_of_nonneg (not_lt.mp hng)]
    have hsign : Int.tmod a u = a.sign * |Int.tmod a u| := by
      rcases lt_trichotomy a 0 with hlt | heq | hgt
      · have hs : a.sign = -1 := Int.sign_eq_neg_one_iff_neg.mpr hlt
        have h0 : Int.tmod a u = -Int.tmod (-a) u := by
          rw [tmod_neg_dividend, neg_neg]
        have hnp : Int.tmod a u ≤ 0 := by
          have hh := Int.tmod_nonneg u (show (0 : Int) ≤ -a by linarith)
          linarith [h0]
        rw [hs, abs_of_nonpos hnp]
        ring
      · exact absurd heq ha
      · have hs : a.sign = 1 := Int.sign_eq_one_iff_pos.mpr hgt
        rw [hs, abs_of_nonneg (Int.tmod_nonneg u hgt.le)]
        ring
    have hdecomp := Int.tdiv_add_tmod a u
    have hleft : Int.tdiv (a - Int.tmod a u) u = Int.tdiv a u := by
      have hexp : a - Int.tmod a u = u * Int.tdiv a u := by linarith [hdecomp]
      rw [hexp, Int.mul_tdiv_cancel_left _ hu.ne']
    refine ⟨?_, ?_, ?_⟩
    · rw [hsplit]
      dsimp only
      rw [habs, hleft, ← hsign, mul_comm]
      exact hdecomp
    · rw [hsplit]
      exact habs
    · rw [hsplit]
      dsimp only
      rw [habs]
      exact hsign

/-- Witness for C3 at `a = -250000007`, `u = 10^8`: the split is
`(-2, 50000007)` and `-2*10^8 + (-1)*50000007 = -250000007`. -/
theorem c3_split_invariant_witness :
    (Amount.split (-250000007) (10 ^ 8)).1 * 10 ^ 8 +
        Int.sign (-250000007) * (Amount.split (-250000007) (10 ^ 8)).2 =
      -250000007 ∧
    (Amount.split (-250000007) (10 ^ 8)).2 = |Int.tmod (-250000007) (10 ^ 8)| ∧
    Int.tmod (-250000007) (10 ^ 8) =
      Int.sign (-250000007) * (Amount.split (-250000007) (10 ^ 8)).2 :=
  c3_split_invariant (-250000007) 8 (by norm_num)

/-- The float-log model is exact on the powers of ten an `int64` can hold. -/
theorem log10f_pow : ∀ k : Nat, k ≤ 18 → log10f ((10 : Int) ^ k) = k := by
  decide

/-- Stripping never empties a nonempty list. -/
theorem stripRevZeros_ne_nil : ∀ {l : List Char}, l ≠ [] → stripRevZeros l ≠ [] := by
  intro l
  induction l with
  | nil => exact fun h => absurd rfl h
  | cons c cs ih =>
    intro _
    unfold stripRevZeros
    by_cases h : c = '0' ∧ cs ≠ []
    · rw [if_pos h]
      exact ih h.2
    · rw [if_neg h]
      exact List.cons_ne_nil c cs

/-- Stripping an all-zero nonempty list leaves a single `'0'`. -/
theorem stripRevZeros_replicate :
    ∀ m : Nat, stripRevZeros (List.replicate (m + 1) '0') = ['0'] := by
  intro m
  induction m with
  | zero => rfl
  | succ m ih =>
    rw [List.replicate_succ]
    unfold stripRevZeros
    rw [if_pos ⟨rfl, by simp⟩]
    exact ih

/-- C8 amended: for every amount and power-of-ten unit `10^k` (`k ≤ 18`),
the fractional string is the remainder zero-padded on the left to width
`k = log10(posUnit)` — the number of digit positions separating the unit
boundary from the finest representable unit — with trailing zeros stripped
down to at least one character; an all-zero remainder renders as `"0"` and
the right string is never empty. -/
theorem c8_right_string_amended (a : Amount) (k : Nat) (hk : k ≤ 18) :
    (Amount.SplitString a (10 ^ k)).2 =
        rightStrSpec k ((Amount.split a (10 ^ k)).2) ∧
    ((Amount.split a (10 ^ k)).2 = 0 →
      (Amount.SplitString a (10 ^ k)).2 = "0") ∧
    (Amount.SplitString a (10 ^ k)).2 ≠ "" := by
  have hlog := log10f_pow k hk
  have h1 : (Amount.SplitString a (10 ^ k)).2 =
      rightStrSpec k ((Amount.split a (10 ^ k)).2) := by
    unfold Amount.SplitString rightStrSpec
    rw [hlog]
  have h2 : (Amount.split a (10 ^ k)).2 = 0 →
      (Amount.SplitString a (10 ^ k)).2 = "0" := by
    intro hr
    rw [h1, hr]
    unfold rightStrSpec
    rw [show toString (0 : Int) = "0" from rfl]
    have hdata : (padZeros k "0").data = List.replicate (k - 1) '0' ++ ['0'] := by
      simp [padZeros]
      rfl
    rw [hdata, List.reverse_append, List.reverse_replicate]
    rw [show List.reverse ['0'] ++ List.replicate (k - 1) '0' =
          List.replicate ((k - 1) + 1) '0' from by
        rw [List.replicate_succ]
        rfl]
    rw [stripRevZeros_replicate]
    rfl
  refine ⟨h1, h2, ?_⟩
  rcases Nat.eq_zero_or_pos k with hk0 | hkpos
  · subst hk0
    have hr : (Amount.split a (10 ^ 0)).2 = 0 := by
      unfold Amount.split
      by_cases ha : a = 0
      · rw [if_pos ha]
      · rw [if_neg ha, if_neg (by norm_num)]
        simp [Int.tmod_one, Amount.Abs]
    rw [h2 hr]
    decide
  · rw [h1]
    unfold rightStrSpec
    intro hcontra
    have hlist := congrArg String.data hcontra
    simp only [String.data] at hlist
    have hne : (padZeros k (toString ((Amount.split a (10 ^ k)).2))).data ≠ [] := by
      apply List.ne_nil_of_length_pos
      rw [show (padZeros k (toString ((Amount.split a (10 ^ k)).2))).data =
            List.replicate (k - (toString ((Amount.split a (10 ^ k)).2)).length) '0' ++
              (toString ((Amount.split a (10 ^ k)).2)).data from rfl]
      rw [List.length_append, List.length_replicate]
      have hs : (toString ((Amount.split a (10 ^ k)).2)).length =
          (toString ((Amount.split a (10 ^ k)).2)).data.length := rfl
      omega
    have hne2 :
        (padZeros k (toString ((Amount.split a (10 ^ k)).2))).data.reverse ≠ [] := by
      simpa using hne
    exact stripRevZeros_ne_nil hne2 (List.reverse_eq_nil_iff.mp hlist)

/-- Witness for the amended C8 theorem at `a = 45` sats, `u = 10^5`
(one mBTC): the remainder 45 pads to `"00045"` and nothing strips. -/
theorem c8_right_string_amended_witness :
    (Amount.SplitString 45 (10 ^ 5)).2 =
        rightStrSpec 5 ((Amount.split 45 (10 ^ 5)).2) ∧
    ((Amount.split 45 (10 ^ 5)).2 = 0 →
      (Amount.SplitString 45 (10 ^ 5)).2 = "0") ∧
    (Amount.SplitString 45 (10 ^ 5)).2 ≠ "" :=
  c8_right_string_amended 45 5 (by norm_num)
